import Mathlib

/-!
Verification development for the stanza log-agent core: shallow embeddings of
the copy (fan-out) operator, the buffer configuration defaults, and the file
input operator (glob matching, known-file tracking, rename detection, offset
persistence), with theorems settling the frozen specification claims.
-/

set_option maxHeartbeats 1000000

namespace Stanza

/-! ## Entry model for the copy operator

The copy operator deep-copies the record of each entry before sending it to
each output.  To reason about aliasing (the effect of mutating one delivered
entry on the others), records are held in an explicit heap and an entry's
`record` field is a reference into that heap. -/

/-- Record values: a tree of string-keyed maps, arrays and scalars
(spec section 3, the `entry.Entry` record shape). -/
inductive RecVal where
  | scalar : String → RecVal
  | rmap : List (String × RecVal) → RecVal
  | arr : List RecVal → RecVal

/-- A heap of allocated record values: `next` is the next fresh reference. -/
structure Heap where
  next : Nat
  mem : Nat → RecVal

/-- An in-flight entry: timestamp, a reference to its record in the heap, and
labels.  Modelled from the spec: `entry.Entry` is not under src/; spec section 3
gives it a timestamp, a record and a labels mapping. -/
structure HEntry where
  timestamp : Nat
  record : Nat
  labels : List (String × String)
  deriving DecidableEq

/-- Modelled from the spec: `copyMap` is not under src/; per spec section 3 and
4.5 it performs a deep copy of the record, which in the heap model allocates a
fresh cell holding an equal value. -/
def copyMap (h : Heap) (r : Nat) : Heap × Nat :=
  ({ next := h.next + 1, mem := fun i => if i = h.next then h.mem r else h.mem i }, h.next)

/-- Embedding of `copyEntry` (src/unnamed/part_000, lines 93-99): the new entry
gets the source timestamp and a deep copy of the record; every other field
(in particular the labels) is left at its zero value. -/
def copyEntry (h : Heap) (e : HEntry) : Heap × HEntry :=
  let p := copyMap h e.record
  (p.1, { timestamp := e.timestamp, record := p.2, labels := [] })

/-- Embedding of the fan-out send loop of `CopyPlugin.Start`
(src/unnamed/part_000, lines 79-82) specialised to `n` outputs, recording the
entry delivered to each output in order. -/
def fanOutSend (h : Heap) (e : HEntry) : Nat → Heap × List HEntry
  | 0 => (h, [])
  | n + 1 =>
    let p := copyEntry h e
    let q := fanOutSend p.1 e n
    (q.1, p.2 :: q.2)

/-- Read the record value of an entry in a heap. -/
def readRec (h : Heap) (e : HEntry) : RecVal := h.mem e.record

/-- Mutate the record cell referenced by `r`. -/
def mutate (h : Heap) (r : Nat) (v : RecVal) : Heap :=
  { h with mem := fun i => if i = r then v else h.mem i }

/-- Correctness of a fan-out delivery of `e` to `n` outputs: the source's
record is untouched, every delivered entry carries the source timestamp, empty
labels and a record equal to the source's but in a cell distinct from the
source's; the delivered cells are pairwise distinct; and mutating the record
of one delivered entry changes neither the source's record nor any other
delivered entry's record. -/
def fanOutOK (h : Heap) (e : HEntry) (n : Nat) : Prop :=
  readRec (fanOutSend h e n).1 e = readRec h e ∧
  (∀ e' ∈ (fanOutSend h e n).2,
    e'.timestamp = e.timestamp ∧ e'.labels = [] ∧
    readRec (fanOutSend h e n).1 e' = readRec h e ∧ e'.record ≠ e.record) ∧
  (fanOutSend h e n).2.Pairwise (fun a b => a.record ≠ b.record) ∧
  ∀ e' ∈ (fanOutSend h e n).2, ∀ v : RecVal,
    readRec (mutate (fanOutSend h e n).1 e'.record v) e =
      readRec (fanOutSend h e n).1 e ∧
    ∀ e'' ∈ (fanOutSend h e n).2, e'' ≠ e' →
      readRec (mutate (fanOutSend h e n).1 e'.record v) e'' =
        readRec (fanOutSend h e n).1 e''

/-! ## Channel model for fan-out delivery

`CopyPlugin.Start` sends to its outputs sequentially from a single goroutine:
`output.Input() <- copyEntry(entry)` blocks when the output's bounded channel
is full, so no later output can be served until the blocked send completes.
`deliverLoop` models one delivery step: it enqueues a fresh copy into each
queue in order and stops at the first full queue, returning its index. -/

/-- A bounded channel: capacity and current buffer. -/
structure ChanSt where
  cap : Nat
  buf : List HEntry
  deriving DecidableEq

/-- Embedding of the send loop of `CopyPlugin.Start` (src/unnamed/part_000,
lines 79-82) over bounded channels: sends happen in output order; a full
channel blocks the loop, leaving it and every later channel untouched.
Returns the final heap, the updated channels, and the index of the blocking
output if any. -/
def deliverLoop (h : Heap) (e : HEntry) : List ChanSt → Heap × List ChanSt × Option Nat
  | [] => (h, [], none)
  | q :: rest =>
    if q.buf.length < q.cap then
      let p := copyEntry h e
      let r := deliverLoop p.1 e rest
      (r.1, { q with buf := q.buf ++ [p.2] } :: r.2.1, r.2.2.map (· + 1))
    else
      (h, q :: rest, some 0)

/-! ## Buffer configuration (src/unnamed/part_001) -/

/-- Memory buffer configuration, as in the `MemoryBufferConfig` literal of the
buffer tests. -/
structure MemoryBufferConfig where
  maxEntries : Nat
  deriving DecidableEq

/-- Disk buffer configuration, as in the `DiskBufferConfig` literal of the
buffer tests. -/
structure DiskBufferConfig where
  maxSize : Nat
  path : String
  sync : Bool
  deriving DecidableEq

/-- The polymorphic `BufferBuilder` carried by a buffer `Config`. -/
inductive BufferBuilder where
  | memory : MemoryBufferConfig → BufferBuilder
  | disk : DiskBufferConfig → BufferBuilder
  deriving DecidableEq

/-- Buffer `Config`: a type tag and the corresponding builder. -/
structure BufferConfig where
  type : String
  builder : BufferBuilder
  deriving DecidableEq

/-- The expected value of the `Default` subtest of `TestBuffer`
(src/unnamed/part_001, lines 104-110): the literal
`Config{Type: "memory", BufferBuilder: &MemoryBufferConfig{MaxEntries: 1 << 20}}`
against which the test compares `NewConfig()`. -/
def testBufferDefaultExpected : BufferConfig :=
  { type := "memory", builder := .memory { maxEntries := 1 <<< 20 } }

/-- The pass condition of the `Default` subtest of `TestBuffer`
(src/unnamed/part_001, lines 102-113): `require.Equal(t, expected, cfg)` for
`cfg := NewConfig()`.  The `NewConfig` computation itself is not under src/,
so claims about the default buffer are settled relative to an arbitrary
default configuration satisfying this subtest. -/
def passesTestBufferDefault (newConfig : BufferConfig) : Prop :=
  newConfig = testBufferDefaultExpected

/-- The entry capacity of a buffer configuration (the memory buffer's
`max_entries`). -/
def maxEntriesOf : BufferConfig → Option Nat
  | { builder := .memory m, .. } => some m.maxEntries
  | _ => none

/-! ## Glob matching (src/unnamed/part_002, `getMatches`)

The filesystem glob and pattern match primitives are parameters (`glob`,
`pmatch`); the control flow of `getMatches` is embedded exactly, including the
labelled `break INCLUDE` that leaves the per-include match loop. -/

/-- The inner `INCLUDE:` loop body of `getMatches` (src/unnamed/part_002,
lines 104-119): `break INCLUDE` on an excluded or duplicate match exits the
whole loop over this include pattern's matches, returning `all` as it stands. -/
def includeLoop (pmatch : String → String → Bool) (excludes : List String) :
    List String → List String → List String
  | all, [] => all
  | all, m :: rest =>
    if excludes.any (fun ex => pmatch ex m) then all
    else if all.contains m then all
    else includeLoop pmatch excludes (all ++ [m]) rest

/-- Embedding of `getMatches` (src/unnamed/part_002, lines 100-123). -/
def getMatches (glob : String → List String) (pmatch : String → String → Bool)
    (includes excludes : List String) : List String :=
  includes.foldl (fun all inc => includeLoop pmatch excludes all (glob inc)) []

/-- The specification's selection predicate: the path matches at least one
include pattern and no exclude pattern ("the set of paths matching
include minus exclude"). -/
def specSelected (glob : String → List String) (pmatch : String → String → Bool)
    (includes excludes : List String) (path : String) : Prop :=
  (∃ inc ∈ includes, path ∈ glob inc) ∧ ∀ ex ∈ excludes, pmatch ex path = false

/-! ## File input operator (src/unnamed/part_002)

The operator's `knownFiles` Go map is modelled as an association list with
distinct keys; `mapInsert` is Go map assignment (replace the binding if the
key is present, append otherwise) and `eraseKey` is Go `delete`. -/

/-- Per-file state (spec section 3, "FileReader state"): path, content
fingerprint, confirmed offset, last observed modification time.  The
`FileReader` type itself is not under src/; this record is modelled from the
spec's data model and persisted-record shape
`{ path, fingerprint, offset, mtime }`. -/
structure FileReader where
  path : String
  fingerprint : List Nat
  offset : Nat
  mtime : Nat
  deriving DecidableEq

/-- The `knownFiles` map of the file input operator. -/
abbrev KnownFiles := List (String × FileReader)

/-- Map lookup on `knownFiles` (Go `f.knownFiles[path]`). -/
def lkp : KnownFiles → String → Option FileReader
  | [], _ => none
  | kv :: rest, k => if kv.1 = k then some kv.2 else lkp rest k

/-- Map assignment on `knownFiles` (Go `f.knownFiles[k] = v`): replace the
binding for `k` when present, otherwise append it. -/
def mapInsert : KnownFiles → String → FileReader → KnownFiles
  | [], k, v => [(k, v)]
  | kv :: rest, k, v => if kv.1 = k then (k, v) :: rest else kv :: mapInsert rest k v

/-- Map deletion on `knownFiles` (Go `delete(f.knownFiles, k)`). -/
def eraseKey (k : String) : KnownFiles → KnownFiles
  | [] => []
  | kv :: rest => if kv.1 = k then eraseKey k rest else kv :: eraseKey k rest

/-- Modelled from the spec: `Fingerprint.Matches` is not under src/; spec
section 4.6 says two fingerprints match when one is a prefix of the other and
the shorter is non-empty. -/
def fpMatches (a b : List Nat) : Bool :=
  (a.isPrefixOf b && !a.isEmpty) || (b.isPrefixOf a && !b.isEmpty)

/-- An abstract file system: the byte contents of each path (absent when the
file cannot be opened) and its modification time. -/
structure FileSystem where
  contents : String → Option (List Nat)
  mtimeOf : String → Nat

/-- Modelled from the spec: `NewFileReader` plus `FileReader.Initialize` are
not under src/; per spec sections 4.6 and 3, initialisation opens the file,
reads the fingerprint (the first `fpBytes` bytes, or the whole file if
shorter), records the modification time, and seeks to the beginning or the end
of the file according to `startAtBeginning`. -/
def initReader (fs : FileSystem) (fpBytes : Nat) (path : String)
    (startAtBeginning : Bool) : Option FileReader :=
  match fs.contents path with
  | none => none
  | some bytes =>
    some { path := path
           fingerprint := bytes.take fpBytes
           offset := if startAtBeginning then 0 else bytes.length
           mtime := fs.mtimeOf path }

/-- The rotation-detection scan of `newFileReader` (src/unnamed/part_002,
lines 156-168): the first known reader whose fingerprint matches the fresh
reader's. -/
def findFpMatch (fp : List Nat) (known : KnownFiles) : Option (String × FileReader) :=
  known.find? (fun kv => fpMatches fp kv.2.fingerprint)

/-- Embedding of `InputOperator.newFileReader` (src/unnamed/part_002, lines
147-172): initialise a fresh reader seeking to the beginning unless this is
the first poll with `start_at = end`; on a fingerprint match with a known
reader, reassign that reader's path, drop its old binding and store it under
the new path, discarding the fresh reader; otherwise store the fresh reader.
Returns the reader to be scheduled and the updated map. -/
def newFileReader (fs : FileSystem) (fpBytes : Nat) (cfgStartAtBeginning : Bool)
    (known : KnownFiles) (path : String) (firstCheck : Bool) :
    Option (FileReader × KnownFiles) :=
  match initReader fs fpBytes path (!firstCheck || cfgStartAtBeginning) with
  | none => none
  | some newReader =>
    match findFpMatch newReader.fingerprint known with
    | some (oldPath, reader) =>
      let moved := { reader with path := path }
      some (moved, mapInsert (eraseKey oldPath known) path moved)
    | none => some (newReader, mapInsert known path newReader)

/-- Embedding of `InputOperator.checkPath` (src/unnamed/part_002, lines
125-145): a known path is scheduled for a read-to-end as is; an unknown path
goes through `newFileReader`, a creation error leaves the map unchanged and
schedules nothing.  Returns the updated map and the paths whose readers were
scheduled for a read-to-end. -/
def checkPath (fs : FileSystem) (fpBytes : Nat) (cfgStartAtBeginning : Bool)
    (known : KnownFiles) (path : String) (firstCheck : Bool) :
    KnownFiles × List String :=
  match lkp known path with
  | some _ => (known, [path])
  | none =>
    match newFileReader fs fpBytes cfgStartAtBeginning known path firstCheck with
    | none => (known, [])
    | some (_, known') => (known', [path])

/-- The per-tick batch: `checkPath` over each matched path in order
(src/unnamed/part_002, lines 92-94). -/
def checkPaths (fs : FileSystem) (fpBytes : Nat) (cfgStartAtBeginning : Bool)
    (known : KnownFiles) (paths : List String) (firstCheck : Bool) :
    KnownFiles × List String :=
  paths.foldl
    (fun acc p =>
      let r := checkPath fs fpBytes cfgStartAtBeginning acc.1 p firstCheck
      (r.1, acc.2 ++ r.2))
    (known, [])

/-! ## Offset persistence (src/unnamed/part_002, lines 174-229)

`syncKnownFiles` writes a stream of self-describing JSON documents: first the
reader count, then one document per reader.  The byte stream is abstracted as
a list of `Item`s, one per encoded document. -/

/-- One encoded document of the persisted stream: a number (the length
prefix) or a `FileReader` record. -/
inductive Item where
  | num : Nat → Item
  | record : FileReader → Item
  deriving DecidableEq

/-- The stream written by `syncKnownFiles` (src/unnamed/part_002, lines
176-196) when every encode succeeds: the number of known files followed by
each reader record in map order. -/
def syncEncode (known : KnownFiles) : List Item :=
  Item.num known.length :: known.map (fun kv => Item.record kv.2)

/-- The decode loop of `loadKnownFiles` (src/unnamed/part_002, lines 219-226):
read `n` reader records, storing each under its own `Path`. -/
def decodeRecords : Nat → KnownFiles → List Item → Option KnownFiles
  | 0, acc, _ => some acc
  | n + 1, acc, Item.record r :: rest => decodeRecords n (mapInsert acc r.path r) rest
  | _ + 1, _, _ => none

/-- Decoding of a persisted stream by `loadKnownFiles` (src/unnamed/part_002,
lines 210-226): a count document followed by that many reader records. -/
def loadDecode (items : List Item) : Option KnownFiles :=
  match items with
  | Item.num n :: rest => decodeRecords n [] rest
  | _ => none

/-- Embedding of `InputOperator.loadKnownFiles` (src/unnamed/part_002, lines
198-229): an absent persisted value yields an empty map; otherwise the stream
is decoded. -/
def loadKnownFiles (persisted : Option (List Item)) : Option KnownFiles :=
  match persisted with
  | none => some []
  | some items => loadDecode items

/-- The operator's view of its persister: the staged/committed value under the
`knownFiles` key, and the number of `Sync` calls made. -/
structure PState where
  knownFilesVal : Option (List Item)
  syncs : Nat
  deriving DecidableEq

/-- The record-encoding loop of `syncKnownFiles` with a fallible encoder:
`none` as soon as any record fails to encode. -/
def encodeAllRecs (encRec : FileReader → Option Item) : KnownFiles → Option (List Item)
  | [] => some []
  | kv :: rest =>
    match encRec kv.2, encodeAllRecs encRec rest with
    | some it, some its => some (it :: its)
    | _, _ => none

/-- Embedding of `InputOperator.syncKnownFiles` (src/unnamed/part_002, lines
176-196) over fallible encoders: if encoding the count or any reader fails,
the function returns before `Set` and `Sync`, leaving the persister state
untouched; otherwise the encoded stream is staged and synced. -/
def syncKnownFilesF (encNat : Nat → Option Item) (encRec : FileReader → Option Item)
    (known : KnownFiles) (p : PState) : PState :=
  match encNat known.length with
  | none => p
  | some cnt =>
    match encodeAllRecs encRec known with
    | none => p
    | some items => { knownFilesVal := some (cnt :: items), syncs := p.syncs + 1 }

/-! ## The poll loop (src/unnamed/part_002, lines 73-98) -/

/-- Observable actions of the poll loop: persisting a snapshot of the known
files, or scheduling a read-to-end on the reader of a path. -/
inductive Action where
  | sync : KnownFiles → Action
  | read : String → Action
  deriving DecidableEq

/-- The static configuration a poll tick depends on. -/
structure PollCfg where
  fs : FileSystem
  fpBytes : Nat
  startAtBeginning : Bool
  includePats : List String
  excludePats : List String
  glob : String → List String
  pmatch : String → String → Bool

/-- Embedding of one iteration of `InputOperator.pollForNewFiles`
(src/unnamed/part_002, lines 85-95): first `syncKnownFiles` persists the
current map, then the matched paths are computed and each is checked.
Returns the ordered actions of the tick and the updated map. -/
def pollTick (c : PollCfg) (known : KnownFiles) (firstCheck : Bool) :
    List Action × KnownFiles :=
  let m := getMatches c.glob c.pmatch c.includePats c.excludePats
  let r := checkPaths c.fs c.fpBytes c.startAtBeginning known m firstCheck
  (Action.sync known :: r.2.map Action.read, r.1)

/-- A run of `n` poll ticks from a given state (the first tick has
`firstCheck = true` only when starting from the initial state). -/
def runFrom (c : PollCfg) (known : KnownFiles) (firstCheck : Bool) :
    Nat → List Action × KnownFiles
  | 0 => ([], known)
  | n + 1 =>
    let t := pollTick c known firstCheck
    let r := runFrom c t.2 false n
    (t.1 ++ r.1, r.2)

/-- Embedding of `InputOperator.Stop` (src/unnamed/part_002, lines 66-71)
after the loop has been cancelled and awaited: one final `syncKnownFiles`. -/
def stopActions (known : KnownFiles) : List Action := [Action.sync known]

/-- A complete run: `n` poll ticks from the empty map followed by `Stop`. -/
def runAndStop (c : PollCfg) (n : Nat) : List Action :=
  let r := runFrom c [] true n
  r.1 ++ stopActions r.2

/-- The claim's reading of the tick order: the persist of a tick comes after
the batch, so the tick's trace ends with a sync of the post-batch state. -/
def tickSyncAfterBatch (acts : List Action) (final : KnownFiles) : Prop :=
  acts.getLast? = some (Action.sync final)

instance (acts : List Action) (final : KnownFiles) :
    Decidable (tickSyncAfterBatch acts final) :=
  inferInstanceAs (Decidable (acts.getLast? = some (Action.sync final)))

/-- The `knownFiles` map invariant: every key equals the `Path` of the reader
stored under it, and the keys are pairwise distinct (so each reader is stored
under exactly one key). -/
def KFInv (l : KnownFiles) : Prop :=
  (∀ kv ∈ l, kv.1 = kv.2.path) ∧ (l.map Prod.fst).Nodup

instance : DecidablePred KFInv := fun l =>
  inferInstanceAs (Decidable ((∀ kv ∈ l, kv.1 = kv.2.path) ∧ (l.map Prod.fst).Nodup))

/-! ## Concrete instances used by witnesses and counterexamples -/

/-- A one-cell heap whose every reference reads as a scalar. -/
def hW1 : Heap := ⟨1, fun _ => RecVal.scalar "r"⟩

/-- A labelled source entry whose record is reference 0 of `hW1`. -/
def eW1 : HEntry := ⟨0, 0, [("k", "v")]⟩

/-- A dummy entry occupying a channel buffer. -/
def dW8 : HEntry := ⟨5, 0, []⟩

/-- Two outputs: the first queue full (capacity 1, one entry buffered), the
second empty with room. -/
def qsC8 : List ChanSt := [⟨1, [dW8]⟩, ⟨1, []⟩]

/-- The glob oracle for the `getMatches` failing input: one pattern expanding
to the two paths `a` and `b`. -/
def globC2 : String → List String := fun _ => ["a", "b"]

/-- Literal pattern matching for the `getMatches` failing input. -/
def pmatchC2 : String → String → Bool := fun ex m => ex == m

/-- A file system holding one two-byte file at path `n`. -/
def fsC3 : FileSystem := ⟨fun p => if p = "n" then some [9, 9] else none, fun _ => 7⟩

/-- A known reader for the since-renamed path `o`, with a confirmed offset. -/
def oldRC3 : FileReader := ⟨"o", [9], 5, 3⟩

/-- A file system holding one three-byte file at path `p`. -/
def fsC4 : FileSystem := ⟨fun p => if p = "p" then some [1, 2, 3] else none, fun _ => 9⟩

/-- A well-formed single-reader `knownFiles` map. -/
def goodM : KnownFiles := [("b", ⟨"b", [1], 4, 2⟩)]

/-- A `knownFiles` map whose key disagrees with its reader's `Path`. -/
def badM : KnownFiles := [("a", ⟨"b", [1], 0, 0⟩)]

/-- The poll configuration for the sync-ordering counterexample: one file `b`
matched by the single include pattern, nothing excluded. -/
def cfgC6 : PollCfg :=
  { fs := ⟨fun p => if p = "b" then some [1] else none, fun _ => 0⟩
    fpBytes := 1
    startAtBeginning := true
    includePats := ["i"]
    excludePats := []
    glob := fun _ => ["b"]
    pmatch := fun _ _ => false }

/-! ## Map lemmas -/

theorem lkp_eq_none_iff (l : KnownFiles) (k : String) :
    lkp l k = none ↔ ∀ kv ∈ l, kv.1 ≠ k := by
  induction l with
  | nil => simp [lkp]
  | cons kv rest ih =>
    by_cases hk : kv.1 = k
    · simp [lkp, hk]
    · simp [lkp, hk, ih]

theorem lkp_ne_none_of_mem {l : KnownFiles} {k : String} {v : FileReader}
    (h : (k, v) ∈ l) : lkp l k ≠ none := by
  intro hn
  exact ((lkp_eq_none_iff l k).mp hn (k, v) h) rfl

theorem lkp_mapInsert_self (l : KnownFiles) (k : String) (v : FileReader) :
    lkp (mapInsert l k v) k = some v := by
  induction l with
  | nil => simp [mapInsert, lkp]
  | cons kv rest ih =>
    by_cases hk : kv.1 = k
    · simp [mapInsert, hk, lkp]
    · simp [mapInsert, hk, lkp, ih]

theorem lkp_mapInsert_other (l : KnownFiles) (k : String) (v : FileReader)
    (q : String) (h : q ≠ k) : lkp (mapInsert l k v) q = lkp l q := by
  have hkq : ¬ k = q := fun hh => h hh.symm
  induction l with
  | nil => simp [mapInsert, lkp, hkq]
  | cons kv rest ih =>
    by_cases hk : kv.1 = k
    · have h1 : ¬ kv.1 = q := by rw [hk]; exact hkq
      simp [mapInsert, hk, lkp, hkq, h1]
    · by_cases hq : kv.1 = q
      · simp [mapInsert, hk, lkp, hq, hkq, h]
      · simp [mapInsert, hk, lkp, hq, ih]

theorem eraseKey_sublist (k : String) (l : KnownFiles) : List.Sublist (eraseKey k l) l := by
  induction l with
  | nil => exact List.Sublist.refl []
  | cons kv rest ih =>
    by_cases hk : kv.1 = k
    · simpa [eraseKey, hk] using ih.cons kv
    · simpa [eraseKey, hk] using ih.cons₂ kv

theorem lkp_eraseKey_self (l : KnownFiles) (k : String) :
    lkp (eraseKey k l) k = none := by
  induction l with
  | nil => simp [eraseKey, lkp]
  | cons kv rest ih =>
    by_cases hk : kv.1 = k
    · simpa [eraseKey, hk] using ih
    · simpa [eraseKey, hk, lkp] using ih

theorem lkp_eraseKey_other (l : KnownFiles) (k q : String) (h : q ≠ k) :
    lkp (eraseKey k l) q = lkp l q := by
  induction l with
  | nil => simp [eraseKey, lkp]
  | cons kv rest ih =>
    by_cases hk : kv.1 = k
    · have hkq : ¬ k = q := fun hh => h hh.symm
      simpa [eraseKey, hk, lkp, hkq] using ih
    · by_cases hq : kv.1 = q
      · simp [eraseKey, hk, lkp, hq, h]
      · simpa [eraseKey, hk, lkp, hq] using ih

theorem mapInsert_eq_append (l : KnownFiles) (k : String) (v : FileReader)
    (h : ∀ kv ∈ l, kv.1 ≠ k) : mapInsert l k v = l ++ [(k, v)] := by
  induction l with
  | nil => simp [mapInsert]
  | cons kv rest ih =>
    have hk : kv.1 ≠ k := h kv (List.mem_cons_self kv rest)
    simp only [mapInsert, if_neg hk, List.cons_append, List.cons.injEq, true_and]
    exact ih (fun kv' h' => h kv' (List.mem_cons_of_mem kv h'))

theorem mem_mapInsert {l : KnownFiles} {k : String} {v : FileReader} {kv' : String × FileReader}
    (h : kv' ∈ mapInsert l k v) : kv' = (k, v) ∨ kv' ∈ l := by
  induction l with
  | nil => simpa [mapInsert] using h
  | cons kv rest ih =>
    by_cases hk : kv.1 = k
    · simp only [mapInsert, if_pos hk, List.mem_cons] at h
      rcases h with h | h
      · exact Or.inl h
      · exact Or.inr (List.mem_cons_of_mem kv h)
    · simp only [mapInsert, if_neg hk, List.mem_cons] at h
      rcases h with h | h
      · exact Or.inr (h ▸ List.mem_cons_self kv rest)
      · rcases ih h with h' | h'
        · exact Or.inl h'
        · exact Or.inr (List.mem_cons_of_mem kv h')

theorem map_fst_mapInsert (l : KnownFiles) (k : String) (v : FileReader) :
    (mapInsert l k v).map Prod.fst = l.map Prod.fst ∨
    (mapInsert l k v).map Prod.fst = l.map Prod.fst ++ [k] ∧ k ∉ l.map Prod.fst := by
  induction l with
  | nil => simp [mapInsert]
  | cons kv rest ih =>
    by_cases hk : kv.1 = k
    · left; simp [mapInsert, hk]
    · rcases ih with h | ⟨h, hmem⟩
      · left; simp [mapInsert, hk, h]
      · right
        constructor
        · simp [mapInsert, hk, h]
        · simp only [List.map_cons, List.mem_cons]
          rintro (h' | h')
          · exact hk h'.symm
          · exact hmem h'

theorem nodup_keys_mapInsert {l : KnownFiles} (k : String) (v : FileReader)
    (h : (l.map Prod.fst).Nodup) : ((mapInsert l k v).map Prod.fst).Nodup := by
  rcases map_fst_mapInsert l k v with h' | ⟨h', hmem⟩
  · rwa [h']
  · rw [h']
    simp only [List.nodup_append, List.nodup_cons, List.not_mem_nil, not_false_iff,
      List.nodup_nil, and_true, true_and]
    exact ⟨h, by simpa [List.disjoint_singleton] using hmem⟩

theorem KFInv_mapInsert {l : KnownFiles} {k : String} {v : FileReader}
    (h : KFInv l) (hv : v.path = k) : KFInv (mapInsert l k v) := by
  constructor
  · intro kv hkv
    rcases mem_mapInsert hkv with rfl | hmem
    · exact hv.symm
    · exact h.1 kv hmem
  · exact nodup_keys_mapInsert k v h.2

theorem KFInv_eraseKey {l : KnownFiles} (k : String) (h : KFInv l) :
    KFInv (eraseKey k l) := by
  constructor
  · intro kv hkv
    exact h.1 kv ((eraseKey_sublist k l).mem hkv)
  · exact h.2.sublist ((eraseKey_sublist k l).map Prod.fst)

/-! ## Reader creation and decode lemmas -/

theorem initReader_path {fs : FileSystem} {fpBytes : Nat} {path : String}
    {sab : Bool} {r : FileReader} (h : initReader fs fpBytes path sab = some r) :
    r.path = path := by
  unfold initReader at h
  cases hb : fs.contents path with
  | none => rw [hb] at h; exact absurd h (by simp)
  | some bytes => rw [hb] at h; cases h; rfl

theorem KFInv_decodeRecords :
    ∀ (n : Nat) (acc : KnownFiles) (items : List Item) (m : KnownFiles),
      KFInv acc → decodeRecords n acc items = some m → KFInv m := by
  intro n
  induction n with
  | zero =>
    intro acc items m hacc h
    cases h
    exact hacc
  | succ n ih =>
    intro acc items m hacc h
    match items with
    | [] => exact absurd h (by simp [decodeRecords])
    | Item.num _ :: _ => exact absurd h (by simp [decodeRecords])
    | Item.record r :: rest =>
      exact ih (mapInsert acc r.path r) rest m (KFInv_mapInsert hacc rfl) h

theorem KFInv_checkPath (fs : FileSystem) (fpBytes : Nat) (cfg : Bool)
    (known : KnownFiles) (path : String) (fc : Bool) (h : KFInv known) :
    KFInv (checkPath fs fpBytes cfg known path fc).1 := by
  cases hl : lkp known path with
  | some r => simpa [checkPath, hl] using h
  | none =>
    cases hi : initReader fs fpBytes path (!fc || cfg) with
    | none => simpa [checkPath, newFileReader, hl, hi] using h
    | some newReader =>
      cases hm : findFpMatch newReader.fingerprint known with
      | some pr =>
        obtain ⟨oldPath, oldR⟩ := pr
        have hcp : (checkPath fs fpBytes cfg known path fc).1 =
            mapInsert (eraseKey oldPath known) path { oldR with path := path } := by
          simp [checkPath, newFileReader, hl, hi, hm]
        rw [hcp]
        exact KFInv_mapInsert (KFInv_eraseKey oldPath h) rfl
      | none =>
        have hcp : (checkPath fs fpBytes cfg known path fc).1 =
            mapInsert known path newReader := by
          simp [checkPath, newFileReader, hl, hi, hm]
        rw [hcp]
        exact KFInv_mapInsert h (initReader_path hi)

/-! ## Claim C9 -/

/-- C9 (confirmed): every `knownFiles` map produced by `loadKnownFiles`, and
every map produced by a `checkPath` step from a map satisfying the invariant,
has each key equal to the `Path` of the reader stored under it and pairwise
distinct keys, so each reader is stored under exactly one key. -/
theorem knownFiles_invariant :
    (∀ (p : Option (List Item)) (m : KnownFiles), loadKnownFiles p = some m → KFInv m) ∧
    ∀ (fs : FileSystem) (fpBytes : Nat) (cfg : Bool) (known : KnownFiles)
      (path : String) (fc : Bool), KFInv known →
      KFInv (checkPath fs fpBytes cfg known path fc).1 := by
  constructor
  · intro p m h
    match p with
    | none =>
      cases h
      exact ⟨by simp, by simp⟩
    | some items =>
      unfold loadKnownFiles loadDecode at h
      match items with
      | [] => exact absurd h (by simp)
      | Item.num n :: rest =>
        exact KFInv_decodeRecords n [] rest m ⟨by simp, by simp⟩ h
      | Item.record _ :: _ => exact absurd h (by simp)
  · exact KFInv_checkPath

/-- Witness for C9: the invariant holds on a concrete decoded map and on the
map a concrete `checkPath` step produces from it. -/
theorem knownFiles_invariant_witness :
    KFInv goodM ∧ KFInv (checkPath fsC3 2 false goodM "c" false).1 :=
  ⟨knownFiles_invariant.1 (some [Item.num 1, Item.record ⟨"b", [1], 4, 2⟩]) goodM (by decide),
   knownFiles_invariant.2 fsC3 2 false goodM "c" false
     (knownFiles_invariant.1 (some [Item.num 1, Item.record ⟨"b", [1], 4, 2⟩]) goodM (by decide))⟩

/-! ## Claim C3 -/

/-- C3 (confirmed): when an unknown path is checked and the fresh reader's
fingerprint matches a known reader's, the known reader is stored under the new
path with its path field reassigned and its offset intact, its binding under
the old path is gone, the fresh reader is discarded, the path is scheduled for
a read-to-end, and no other binding changes. -/
theorem rename_detection (fs : FileSystem) (fpBytes : Nat) (cfg : Bool)
    (known : KnownFiles) (path : String) (fc : Bool)
    (newR : FileReader) (oldPath : String) (oldR : FileReader)
    (hk : lkp known path = none)
    (hinit : initReader fs fpBytes path (!fc || cfg) = some newR)
    (hmatch : findFpMatch newR.fingerprint known = some (oldPath, oldR)) :
    lkp (checkPath fs fpBytes cfg known path fc).1 path = some { oldR with path := path } ∧
    lkp (checkPath fs fpBytes cfg known path fc).1 oldPath = none ∧
    ({ oldR with path := path } : FileReader).offset = oldR.offset ∧
    (checkPath fs fpBytes cfg known path fc).2 = [path] ∧
    ∀ q, q ≠ path → q ≠ oldPath →
      lkp (checkPath fs fpBytes cfg known path fc).1 q = lkp known q := by
  have hop : oldPath ≠ path := by
    intro he
    have hmem : (oldPath, oldR) ∈ known := List.mem_of_find?_eq_some hmatch
    exact lkp_ne_none_of_mem (he ▸ hmem) hk
  have hcp : checkPath fs fpBytes cfg known path fc =
      (mapInsert (eraseKey oldPath known) path { oldR with path := path }, [path]) := by
    simp [checkPath, newFileReader, hk, hinit, hmatch]
  refine ⟨?_, ?_, rfl, ?_, ?_⟩
  · rw [hcp]
    exact lkp_mapInsert_self _ _ _
  · rw [hcp]
    have h1 := lkp_mapInsert_other (eraseKey oldPath known) path
      { oldR with path := path } oldPath hop
    simpa [h1] using lkp_eraseKey_self known oldPath
  · rw [hcp]
  · intro q hq hqo
    rw [hcp]
    have h1 := lkp_mapInsert_other (eraseKey oldPath known) path
      { oldR with path := path } q hq
    simpa [h1] using lkp_eraseKey_other known oldPath q hqo

/-- Witness for C3: a concrete rename — the file at path `n` carries the
fingerprint of the known reader of path `o`, so the old reader moves to key
`n` with its offset 5 intact, key `o` disappears and `n` is scheduled. -/
theorem rename_detection_witness :
    lkp (checkPath fsC3 2 false [("o", oldRC3)] "n" true).1 "n" =
      some { oldRC3 with path := "n" } ∧
    lkp (checkPath fsC3 2 false [("o", oldRC3)] "n" true).1 "o" = none ∧
    ({ oldRC3 with path := "n" } : FileReader).offset = oldRC3.offset ∧
    (checkPath fsC3 2 false [("o", oldRC3)] "n" true).2 = ["n"] ∧
    ∀ q, q ≠ "n" → q ≠ "o" →
      lkp (checkPath fsC3 2 false [("o", oldRC3)] "n" true).1 q =
        lkp [("o", oldRC3)] q :=
  rename_detection fsC3 2 false [("o", oldRC3)] "n" true ⟨"n", [9, 9], 2, 7⟩ "o" oldRC3
    (by decide) (by decide) (by decide)

/-! ## Claim C4 -/

/-- C4 (confirmed): a reader created for a first-seen path (no fingerprint
match with any known reader) starts at the end of the file exactly when the
creation happens during the first poll with `start_at = end`
(`cfg = false` is `start_at = end`); in every other case it starts at
offset 0. -/
theorem start_at_initialization (fs : FileSystem) (fpBytes : Nat) (cfg : Bool)
    (known : KnownFiles) (path : String) (fc : Bool) (bytes : List Nat)
    (r : FileReader) (known' : KnownFiles)
    (hb : fs.contents path = some bytes)
    (h : newFileReader fs fpBytes cfg known path fc = some (r, known'))
    (hnm : findFpMatch (bytes.take fpBytes) known = none) :
    r.offset = if fc && !cfg then bytes.length else 0 := by
  have h' : newFileReader fs fpBytes cfg known path fc =
      some (⟨path, bytes.take fpBytes, if !fc || cfg then 0 else bytes.length,
          fs.mtimeOf path⟩,
        mapInsert known path ⟨path, bytes.take fpBytes,
          if !fc || cfg then 0 else bytes.length, fs.mtimeOf path⟩) := by
    simp [newFileReader, initReader, hb, hnm]
  have hcomb := h'.symm.trans h
  simp only [Option.some.injEq, Prod.mk.injEq] at hcomb
  obtain ⟨hr, -⟩ := hcomb
  rw [← hr]
  cases fc <;> cases cfg <;> simp

/-- Witness for C4: the file at path `p` has three bytes; created on the first
poll with `start_at = end`, the reader's offset is the file length 3. -/
theorem start_at_initialization_witness :
    (⟨"p", [1], 3, 9⟩ : FileReader).offset =
      if true && !false then ([1, 2, 3] : List Nat).length else 0 :=
  start_at_initialization fsC4 1 false [] "p" true [1, 2, 3] ⟨"p", [1], 3, 9⟩
    [("p", ⟨"p", [1], 3, 9⟩)] (by decide) (by decide) (by decide)

/-! ## Claim C5 -/

theorem decodeRecords_encode :
    ∀ (l acc : KnownFiles), (∀ kv ∈ l, kv.1 = kv.2.path) →
      ((acc ++ l).map Prod.fst).Nodup →
      decodeRecords l.length acc (l.map fun kv => Item.record kv.2) = some (acc ++ l) := by
  intro l
  induction l with
  | nil => intro acc _ _; simp [decodeRecords]
  | cons kv rest ih =>
    intro acc hpath hnd
    have hkv : kv.1 = kv.2.path := hpath kv (List.mem_cons_self kv rest)
    have hfresh : ∀ kv' ∈ acc, kv'.1 ≠ kv.1 := by
      intro kv' hkv' he
      rw [List.map_append, List.nodup_append] at hnd
      exact hnd.2.2 (List.mem_map_of_mem Prod.fst hkv') (by simp [he])
    have hstep : mapInsert acc kv.2.path kv.2 = acc ++ [kv] := by
      rw [← hkv]
      exact mapInsert_eq_append acc kv.1 kv.2 hfresh
    simp only [List.length_cons, List.map_cons, decodeRecords, hstep]
    have hnd' : (((acc ++ [kv]) ++ rest).map Prod.fst).Nodup := by
      rwa [List.append_assoc, List.singleton_append]
    have := ih (acc ++ [kv]) (fun kv' h' => hpath kv' (List.mem_cons_of_mem kv h')) hnd'
    rw [this, List.append_assoc, List.singleton_append]

/-- C5 (corrected, amended): for every `knownFiles` map in which each key is
the stored reader's `Path` (the invariant the operator maintains, claim C9),
encoding with `syncKnownFiles` and decoding with `loadKnownFiles` yields the
same map — same paths, and per path an equal fingerprint, offset and
modification time. -/
theorem known_files_roundtrip (m : KnownFiles) (h : KFInv m) :
    loadDecode (syncEncode m) = some m := by
  have : loadDecode (syncEncode m) =
      decodeRecords m.length [] (m.map fun kv => Item.record kv.2) := by
    simp [loadDecode, syncEncode]
  rw [this]
  have := decodeRecords_encode m [] h.1 (by simpa using h.2)
  simpa using this

/-- Witness for C5: a concrete well-keyed map survives the encode/decode
round trip unchanged. -/
theorem known_files_roundtrip_witness : loadDecode (syncEncode goodM) = some goodM :=
  known_files_roundtrip goodM (by decide)

/-- Counterexample for C5 as frozen: for a map whose key `a` differs from the
stored reader's `Path` `b`, decoding the encoded stream rebuilds the entry
under key `b`, so the round trip does not return the original map.  The claim
quantifies over every map of FileReaders and is therefore false without the
key-equals-path hypothesis. -/
theorem known_files_roundtrip_counterexample :
    loadDecode (syncEncode badM) ≠ some badM := by decide

/-! ## Claim C10 -/

theorem encodeAllRecs_eq_none (encRec : FileReader → Option Item) :
    ∀ l : KnownFiles, (∃ kv ∈ l, encRec kv.2 = none) → encodeAllRecs encRec l = none := by
  intro l
  induction l with
  | nil => rintro ⟨kv, h, -⟩; exact absurd h (List.not_mem_nil kv)
  | cons kv rest ih =>
    rintro ⟨kv', hmem, hnone⟩
    rcases List.mem_cons.mp hmem with rfl | hmem'
    · simp [encodeAllRecs, hnone]
    · have := ih ⟨kv', hmem', hnone⟩
      simp only [encodeAllRecs, this]
      cases encRec kv.2 <;> rfl

/-- C10 (confirmed): if encoding the reader count or any reader record fails,
`syncKnownFiles` returns before `Set` and `Sync`, leaving the persisted
known-files state and the number of committed syncs exactly as before. -/
theorem syncKnownFiles_error_no_write (encNat : Nat → Option Item)
    (encRec : FileReader → Option Item) (known : KnownFiles) (p : PState)
    (h : encNat known.length = none ∨ ∃ kv ∈ known, encRec kv.2 = none) :
    syncKnownFilesF encNat encRec known p = p := by
  rcases h with h | h
  · simp [syncKnownFilesF, h]
  · cases hn : encNat known.length with
    | none => simp [syncKnownFilesF, hn]
    | some cnt => simp [syncKnownFilesF, hn, encodeAllRecs_eq_none encRec known h]

/-- Witness for C10: a count encoder that fails leaves a concrete persister
state untouched. -/
theorem syncKnownFiles_error_no_write_witness :
    syncKnownFilesF (fun _ => none) (fun r => some (Item.record r)) goodM
      ⟨some [Item.num 0], 4⟩ = ⟨some [Item.num 0], 4⟩ :=
  syncKnownFiles_error_no_write (fun _ => none) (fun r => some (Item.record r)) goodM
    ⟨some [Item.num 0], 4⟩ (Or.inl rfl)

/-! ## Claim C6 -/

/-- Counterexample for C6 as frozen: on the first tick of a concrete
configuration the actions are `[sync [], read "b"]` — the persist precedes the
batch and records the map before this tick's read of `b` was scheduled, so the
tick's trace does not end with a sync of the post-batch state. -/
theorem poll_sync_order_counterexample :
    ¬ tickSyncAfterBatch (pollTick cfgC6 [] true).1 (pollTick cfgC6 [] true).2 := by
  decide

/-- C6 (corrected, amended): on every poll tick the operator persists the
known-reader state first, before processing that tick's batch — so the state
persisted at a tick reflects the reads of earlier ticks — every other action
of the tick is a scheduled read, and Stop persists the state once more after
the loop, so a full run ends with a sync of the final state. -/
theorem poll_persists_before_batch :
    (∀ (c : PollCfg) (st : KnownFiles) (fc : Bool),
      (pollTick c st fc).1.head? = some (Action.sync st) ∧
      ∀ a ∈ (pollTick c st fc).1.tail, ∃ p, a = Action.read p) ∧
    ∀ (c : PollCfg) (n : Nat),
      (runAndStop c n).getLast? = some (Action.sync (runFrom c [] true n).2) := by
  constructor
  · intro c st fc
    constructor
    · rfl
    · intro a ha
      simp only [pollTick, List.tail_cons, List.mem_map] at ha
      obtain ⟨p, -, rfl⟩ := ha
      exact ⟨p, rfl⟩
  · intro c n
    show ((runFrom c [] true n).1 ++ [Action.sync (runFrom c [] true n).2]).getLast? = _
    rw [List.getLast?_concat]

/-- Witness for C6 (amended): on the concrete configuration, the first tick's
first action is a sync of the empty pre-batch map, its remaining action is a
read, and a one-tick run ends with the Stop sync of the final state. -/
theorem poll_persists_before_batch_witness :
    (pollTick cfgC6 [] true).1.head? = some (Action.sync []) ∧
    (∀ a ∈ (pollTick cfgC6 [] true).1.tail, ∃ p, a = Action.read p) ∧
    (runAndStop cfgC6 1).getLast? = some (Action.sync (runFrom cfgC6 [] true 1).2) :=
  ⟨(poll_persists_before_batch.1 cfgC6 [] true).1,
   (poll_persists_before_batch.1 cfgC6 [] true).2,
   poll_persists_before_batch.2 cfgC6 1⟩

/-! ## Claim C7 -/

/-- Counterexample for C7 as frozen: no default buffer configuration
consistent with the repository's own `Default` subtest of `TestBuffer` has a
capacity of 100 entries — the subtest requires `NewConfig()` to equal a memory
buffer with `MaxEntries: 1 << 20`, so a default of 100 entries would fail it. -/
theorem default_buffer_not_100 :
    ¬ ∃ c : BufferConfig, passesTestBufferDefault c ∧ maxEntriesOf c = some 100 := by
  rintro ⟨c, hc, hm⟩
  have hc' : c = testBufferDefaultExpected := hc
  subst hc'
  exact absurd hm (by decide)

/-- C7 (corrected, amended): every default buffer configuration consistent
with the `Default` subtest of `TestBuffer` — the only authority on
`NewConfig` under src/ — is a memory buffer whose capacity is `1 <<< 20`
(1048576) entries, not 100. -/
theorem default_buffer_capacity (c : BufferConfig) (h : passesTestBufferDefault c) :
    maxEntriesOf c = some 1048576 := by
  have h' : c = testBufferDefaultExpected := h
  subst h'
  decide

/-- Witness for C7 (amended): the subtest's own expected configuration passes
the subtest and has capacity 1048576. -/
theorem default_buffer_capacity_witness :
    maxEntriesOf testBufferDefaultExpected = some 1048576 :=
  default_buffer_capacity testBufferDefaultExpected rfl

/-! ## Claim C2 -/

/-- C2 (code_bug): with one include pattern globbing to `[a, b]` and the
exclude pattern `a`, the labelled `break INCLUDE` taken on the excluded match
`a` aborts the loop over all of this include pattern's matches, so
`getMatches` returns `[]` even though `b` matches an include pattern and no
exclude pattern and thus belongs to the specified result set. -/
theorem getMatches_break_bug :
    getMatches globC2 pmatchC2 ["i"] ["a"] = [] ∧
    specSelected globC2 pmatchC2 ["i"] ["a"] "b" := by
  refine ⟨by decide, ⟨"i", by decide, by decide⟩, ?_⟩
  intro ex hex
  rcases List.mem_singleton.mp hex with rfl
  decide

/-! ## Claim C1 -/

theorem fanOutSend_spec (e : HEntry) :
    ∀ (n : Nat) (h : Heap), e.record < h.next →
      (fanOutSend h e n).2 =
        (List.range n).map (fun k => ⟨e.timestamp, h.next + k, []⟩) ∧
      (fanOutSend h e n).1.next = h.next + n ∧
      ∀ i, (fanOutSend h e n).1.mem i =
        if h.next ≤ i ∧ i < h.next + n then h.mem e.record else h.mem i := by
  intro n
  induction n with
  | zero =>
    intro h hr
    refine ⟨rfl, rfl, fun i => ?_⟩
    rw [if_neg (by omega : ¬ (h.next ≤ i ∧ i < h.next + 0))]
    rfl
  | succ n ih =>
    intro h hr
    have hstep : fanOutSend h e (n + 1) =
        ((fanOutSend (copyEntry h e).1 e n).1,
         (copyEntry h e).2 :: (fanOutSend (copyEntry h e).1 e n).2) := rfl
    have h1next : (copyEntry h e).1.next = h.next + 1 := rfl
    have h1mem : ∀ i, (copyEntry h e).1.mem i =
        if i = h.next then h.mem e.record else h.mem i := fun _ => rfl
    have h1memsrc : (copyEntry h e).1.mem e.record = h.mem e.record :=
      if_neg (Nat.ne_of_lt hr)
    obtain ⟨ih1, ih2, ih3⟩ := ih (copyEntry h e).1 (by rw [h1next]; omega)
    simp only [h1next] at ih1 ih2 ih3
    refine ⟨?_, ?_, ?_⟩
    · rw [hstep]
      show (copyEntry h e).2 :: (fanOutSend (copyEntry h e).1 e n).2 = _
      rw [ih1, List.range_succ_eq_map, List.map_cons, List.map_map]
      have harith : ∀ k, h.next + 1 + k = h.next + (k + 1) := fun k => by omega
      have hcc : (copyEntry h e).2 = (⟨e.timestamp, h.next, []⟩ : HEntry) := rfl
      refine congrArg₂ List.cons ?_ ?_
      · rw [hcc]
        simp
      · refine List.map_congr_left ?_
        intro k _
        show (⟨e.timestamp, h.next + 1 + k, []⟩ : HEntry) =
          ⟨e.timestamp, h.next + (k + 1), []⟩
        rw [harith k]
    · rw [hstep]
      show (fanOutSend (copyEntry h e).1 e n).1.next = h.next + (n + 1)
      rw [ih2]
      omega
    · intro i
      rw [hstep]
      show (fanOutSend (copyEntry h e).1 e n).1.mem i = _
      rw [ih3 i, h1memsrc, h1mem i]
      by_cases hA : h.next ≤ i ∧ i < h.next + (n + 1)
      · rw [if_pos hA]
        by_cases hB : h.next + 1 ≤ i ∧ i < h.next + 1 + n
        · rw [if_pos hB]
        · rw [if_neg hB, if_pos (by omega : i = h.next)]
      · rw [if_neg hA]
        rw [if_neg (by omega : ¬ (h.next + 1 ≤ i ∧ i < h.next + 1 + n))]
        rw [if_neg (by omega : ¬ i = h.next)]

/-- C1 (corrected, amended): each output of the fan-out receives an entry with
the source's timestamp and a deep copy of the source's record in a fresh heap
cell — but with empty labels, not the source's labels — and the copies are
independent: mutating the record delivered to one output changes neither the
source's record nor the record delivered to any other output. -/
theorem copy_fanout_amended (h : Heap) (e : HEntry) (n : Nat)
    (hr : e.record < h.next) : fanOutOK h e n := by
  obtain ⟨h1, h2, h3⟩ := fanOutSend_spec e n h hr
  have hform : ∀ e' ∈ (fanOutSend h e n).2,
      ∃ k, k < n ∧ e' = ⟨e.timestamp, h.next + k, []⟩ := by
    intro e' he'
    rw [h1] at he'
    obtain ⟨k, hk, rfl⟩ := List.mem_map.mp he'
    exact ⟨k, List.mem_range.mp hk, rfl⟩
  refine ⟨?_, ?_, ?_, ?_⟩
  · show (fanOutSend h e n).1.mem e.record = h.mem e.record
    rw [h3 e.record, if_neg (by omega)]
  · intro e' he'
    obtain ⟨k, hk, rfl⟩ := hform e' he'
    refine ⟨rfl, rfl, ?_, ?_⟩
    · show (fanOutSend h e n).1.mem (h.next + k) = h.mem e.record
      rw [h3 (h.next + k), if_pos (by omega)]
    · show h.next + k ≠ e.record
      omega
  · rw [h1, List.pairwise_map]
    refine (List.pairwise_lt_range n).imp ?_
    intro a b hab
    show h.next + a ≠ h.next + b
    omega
  · intro e' he' v
    obtain ⟨k, hk, rfl⟩ := hform e' he'
    constructor
    · show (if e.record = h.next + k then v else (fanOutSend h e n).1.mem e.record) =
        (fanOutSend h e n).1.mem e.record
      rw [if_neg (by omega)]
    · intro e'' he'' hne
      obtain ⟨k', hk', rfl⟩ := hform e'' he''
      have hkk : ¬ h.next + k' = h.next + k := by
        intro hc
        exact hne (by rw [show k' = k from by omega])
      show (if h.next + k' = h.next + k then v
          else (fanOutSend h e n).1.mem (h.next + k')) =
        (fanOutSend h e n).1.mem (h.next + k')
      rw [if_neg hkk]

/-- Witness for C1: the amended property at a concrete one-cell heap, a
labelled source entry and two outputs. -/
theorem copy_fanout_witness : fanOutOK hW1 eW1 2 :=
  copy_fanout_amended hW1 eW1 2 (by decide)

/-- Counterexample for C1 as frozen: the entries delivered by the fan-out of a
labelled source entry do not carry the source's labels — `copyEntry` copies
only the timestamp and the record, leaving the labels at their zero value — so
the delivered entries are not equal to the consumed entry. -/
theorem copy_fanout_counterexample :
    ¬ ∀ e' ∈ (fanOutSend hW1 eW1 2).2, e'.labels = eW1.labels := by decide

/-! ## Claim C8 -/

/-- C8 (corrected, amended): fan-out delivery is a single sequential loop over
the outputs: a full queue at the head blocks immediately with nothing
delivered anywhere past it, and in general when the loop blocks at output `i`,
the queues from `i` on are exactly as before (the blocked output and every
later one received nothing) while each earlier queue received exactly one
entry — so a slow consumer backpressures every branch after it, not only its
own. -/
theorem fanout_blocking_amended :
    (∀ (h : Heap) (e : HEntry) (q : ChanSt) (qs : List ChanSt),
      q.cap ≤ q.buf.length →
      deliverLoop h e (q :: qs) = (h, q :: qs, some 0)) ∧
    ∀ (h : Heap) (e : HEntry) (qs : List ChanSt) (i : Nat),
      (deliverLoop h e qs).2.2 = some i →
      (deliverLoop h e qs).2.1.drop i = qs.drop i ∧
      ∀ j, j < i → ((deliverLoop h e qs).2.1.get? j).map (fun q => q.buf.length) =
        (qs.get? j).map (fun q => q.buf.length + 1) := by
  constructor
  · intro h e q qs hfull
    have hc : ¬ q.buf.length < q.cap := Nat.not_lt.mpr hfull
    simp [deliverLoop, hc]
  · intro h e qs
    induction qs generalizing h with
    | nil =>
      intro i hi
      exact absurd hi (by simp [deliverLoop])
    | cons q rest ih =>
      intro i hi
      by_cases hc : q.buf.length < q.cap
      · have hred : deliverLoop h e (q :: rest) =
            ((deliverLoop (copyEntry h e).1 e rest).1,
             { q with buf := q.buf ++ [(copyEntry h e).2] } ::
               (deliverLoop (copyEntry h e).1 e rest).2.1,
             (deliverLoop (copyEntry h e).1 e rest).2.2.map (· + 1)) := by
          simp [deliverLoop, hc]
        rw [hred] at hi ⊢
        simp only at hi
        obtain ⟨i', hi', rfl⟩ := Option.map_eq_some'.mp hi
        obtain ⟨d1, d2⟩ := ih (copyEntry h e).1 i' hi'
        constructor
        · simpa [List.drop_succ_cons] using d1
        · intro j hj
          cases j with
          | zero => simp
          | succ j' =>
            have hj' : j' < i' := by omega
            simpa [List.get?_cons_succ] using d2 j' hj'
      · have hred : deliverLoop h e (q :: rest) = (h, q :: rest, some 0) := by
          simp [deliverLoop, hc]
        rw [hred] at hi ⊢
        have hi0 : i = 0 := by simpa using hi.symm
        subst hi0
        exact ⟨rfl, fun j hj => absurd hj (by omega)⟩

/-- Witness for C8: with the first of two outputs full, the delivery loop
blocks at index 0 and leaves both queues (and the heap) unchanged. -/
theorem fanout_blocking_witness :
    deliverLoop hW1 eW1 ((⟨1, [dW8]⟩ : ChanSt) :: [⟨1, []⟩]) =
      (hW1, (⟨1, [dW8]⟩ : ChanSt) :: [⟨1, []⟩], some 0) :=
  fanout_blocking_amended.1 hW1 eW1 ⟨1, [dW8]⟩ [⟨1, []⟩] (by decide)

/-- Counterexample for C8 as frozen: the second output has room
(`0 < 1`), yet after the delivery step it has received nothing because the
first output's queue was full — a full queue does not block only its own
branch. -/
theorem fanout_independence_counterexample :
    (deliverLoop hW1 eW1 qsC8).2.1 = qsC8 ∧
    (deliverLoop hW1 eW1 qsC8).2.2 = some 0 ∧
    (⟨1, []⟩ : ChanSt).buf.length < (⟨1, []⟩ : ChanSt).cap := by decide

end Stanza
